import Mathlib

/-!
Shallow embedding of the react-native-queue-sa job-queue engine.

The engine consists of the `Queue` scheduler (Models/Queue.js) and the
`MemoryStorage` backend (Models/MemoryStorage.js).  JavaScript numbers that
the engine compares arithmetically (`priority`, `timeout`, timestamps,
attempt counters) are embedded as `Int`; job ids and names are `String`s;
the JSON blobs `payload` and `data` are embedded as a `String` and an
explicit record respectively.  The in-memory key/value object
`memoryStorage.items` is embedded as an association list in key-insertion
order, matching the enumeration order of string keys in a JS object
(`Object.keys`): assigning an existing key keeps its position, a fresh key
is appended.  Asynchronous methods are embedded as pure state-passing
functions; the worker's handler execution (`Worker.executeJob`, whose file
is not part of the engine sources here) is abstracted as an
`Except String String` outcome, and `Worker.getConcurrency` as an abstract
`String → Nat` function.
-/

namespace RNQueue

/-- The per-job bookkeeping kept JSON-serialized in the `data` column:
`{attempts, failedAttempts?, errors?}` (MemoryStorage.js schema comment;
Queue.js `createJob`/`processJob`).  `failedAttempts` and `errors` are
absent (`none`) until the first failure. -/
structure JobData where
  attempts : Int
  failedAttempts : Option Int := none
  errors : Option (List String) := none
deriving DecidableEq

/-- A persisted job record, following the `JobSchema` comment of
MemoryStorage.js. -/
structure Job where
  id : String
  name : String
  payload : String
  data : JobData
  priority : Int
  active : Bool
  timeout : Int
  created : Int
  failed : Option Int
deriving DecidableEq

/-- `memoryStorage.items`: string-keyed object holding the job records, in
key insertion order.  Keys are the job ids (the constant `JOB_PREFIX`
prepended by `_getKey` is injective, so it is dropped). -/
abbrev Store := List (String × Job)

/-- `memoryStorage.save(key, value)` for a single key: assigning an existing
key of a JS object replaces its value in place, a fresh key is appended. -/
def saveItem (st : Store) (k : String) (v : Job) : Store :=
  if st.any (fun p => p.1 = k) then
    st.map (fun p => if p.1 = k then (k, v) else p)
  else
    st ++ [(k, v)]

/-- `MemoryStorage.create(job)`: `memoryStorage.save(this._getKey(job), job)`. -/
def Store.create (st : Store) (j : Job) : Store :=
  saveItem st j.id j

/-- `MemoryStorage.objects()`: the values of all job keys, in key order. -/
def Store.objects (st : Store) : List Job :=
  st.map Prod.snd

/-- Reading one record by key (`memoryStorage.get` of a single key). -/
def Store.find (st : Store) (k : String) : Option Job :=
  (st.find? (fun p => p.1 = k)).map Prod.snd

/-- `MemoryStorage.delete(job)` for a single job: `delete items[key]`. -/
def Store.deleteJob (st : Store) (j : Job) : Store :=
  st.filter (fun p => !(p.1 = j.id : Bool))

/-- `MemoryStorage.saveAll(jobs)`: assigns each `(key, job)` pair in order. -/
def Store.saveAll (st : Store) (jobs : List Job) : Store :=
  jobs.foldl Store.create st

/-- `MemoryStorage.markActive(jobs)`: sets `job.active = true` on each job
object (mutating the very objects the caller holds) and saves them all.
Returns the new store together with the mutated job values. -/
def Store.markActive (st : Store) (jobs : List Job) : Store × List Job :=
  let marked := jobs.map (fun j => { j with active := true })
  (st.saveAll marked, marked)

/-- `MemoryStorage.resetFailedJobs()`: sets `failed = null` on every record
and saves them all. -/
def Store.resetFailedJobs (st : Store) : Store :=
  st.saveAll (st.objects.map (fun j => { j with failed := none }))

/-- `MemoryStorage.deleteByName(name)`. -/
def Store.deleteByName (st : Store) (nm : String) : Store :=
  st.filter (fun p => !(p.2.name = nm : Bool))

/-- The comparator realized by
`_.orderBy(jobs, ['priority', 'created'], ['desc', 'asc'])`:
higher `priority` first, older `created` first on ties. -/
def jobLE (a b : Job) : Prop :=
  b.priority < a.priority ∨ (a.priority = b.priority ∧ a.created ≤ b.created)

instance : DecidableRel jobLE := fun a b => by
  unfold jobLE; infer_instance

instance : IsTotal Job jobLE where
  total a b := by
    unfold jobLE
    rcases lt_trichotomy a.priority b.priority with h | h | h
    · exact Or.inr (Or.inl h)
    · rcases le_total a.created b.created with hc | hc
      · exact Or.inl (Or.inr ⟨h, hc⟩)
      · exact Or.inr (Or.inr ⟨h.symm, hc⟩)
    · exact Or.inl (Or.inl h)

instance : IsTrans Job jobLE where
  trans a b c := by
    unfold jobLE
    rintro (h₁ | ⟨h₁, h₁c⟩) (h₂ | ⟨h₂, h₂c⟩)
    · exact Or.inl (h₂.trans h₁)
    · exact Or.inl (h₂ ▸ h₁)
    · exact Or.inl (h₂.trans_eq h₁.symm)
    · exact Or.inr ⟨h₁.trans h₂, h₁c.trans h₂c⟩

/-- `MemoryStorage.findNextJobs(timeoutUpperBound)`: filter the records to
the eligible ones — with a bound: `!active && failed === null && timeout > 0
&& timeout < timeoutUpperBound`; without: `!active && failed === null` —
then order by priority descending, creation ascending. -/
def Store.findNextJobs (st : Store) (timeoutUpperBound : Option Int) : List Job :=
  let jobs := st.objects
  let jobs :=
    match timeoutUpperBound with
    | some b =>
        jobs.filter (fun j =>
          !j.active && decide (j.failed = none) &&
          decide (0 < j.timeout) && decide (j.timeout < b))
    | none =>
        jobs.filter (fun j => !j.active && decide (j.failed = none))
  List.insertionSort jobLE jobs

/-- `Queue.getConcurrentJobs(queueLifespanRemaining)`: compute
`timeoutUpperBound = queueLifespanRemaining - 499` when a lifespan remains,
query `findNextJobs`, and if a head job exists take up to
`getConcurrency(head.name)` jobs of the head's name (in order), mark them
active in the store, and return them.  `conc` abstracts
`Worker.getConcurrency`. -/
def getConcurrentJobs (conc : String → Nat) (st : Store)
    (queueLifespanRemaining : Option Int) : List Job × Store :=
  let timeoutUpperBound := queueLifespanRemaining.map (fun l => l - 499)
  let jobs := st.findNextJobs timeoutUpperBound
  match jobs with
  | [] => ([], st)
  | nextJob :: _ =>
      let concurrency := conc nextJob.name
      let allRelatedJobs := jobs.filter (fun j => j.name = nextJob.name)
      let concurrentJobs := allRelatedJobs.take concurrency
      let res := st.markActive concurrentJobs
      (res.2, res.1)

/-- The lifecycle callback invocations fired by `processJob`, in order. -/
inductive Event where
  | onStart
  | onSuccess (result : String)
  | onFailure
  | onFailed
  | onComplete (result : Option String)
deriving DecidableEq

/-- `if (!jobData.failedAttempts) { ... = 1 } else { ...++ }`: a missing or
zero (JS-falsy) counter becomes 1, otherwise it is incremented. -/
def incFailedAttempts (o : Option Int) : Int :=
  match o with
  | none => 1
  | some n => if n = 0 then 1 else n + 1

/-- `if (!jobData.errors) { ... = [msg] } else { ....push(msg) }`: a missing
list becomes the singleton, otherwise the message is appended (an empty JS
array is truthy, so it also takes the push branch). -/
def appendError (o : Option (List String)) (msg : String) : List String :=
  match o with
  | none => [msg]
  | some l => l ++ [msg]

/-- `Queue.processJob(job)`: fire `onStart`, execute the handler (abstracted
as `outcome`).  On success, delete the record and fire `onSuccess` then
`onComplete` with the result.  On failure, bump `failedAttempts`, append the
error, merge back `{data, active: false}` plus `failed = now` when
`failedAttempts >= attempts`, fire `onFailure`, and additionally `onFailed`
then `onComplete` (the result variable is still undefined) when the budget
is exhausted.  Returns the new store and the fired events in order. -/
def processJob (st : Store) (job : Job) (outcome : Except String String)
    (now : Int) : Store × List Event :=
  match outcome with
  | .ok res =>
      (st.deleteJob job, [.onStart, .onSuccess res, .onComplete (some res)])
  | .error msg =>
      let fa := incFailedAttempts job.data.failedAttempts
      let errs := appendError job.data.errors msg
      let newData : JobData :=
        { attempts := job.data.attempts, failedAttempts := some fa,
          errors := some errs }
      let merged : Job :=
        { job with
          data := newData
          active := false
          failed := if job.data.attempts ≤ fa then some now else job.failed }
      (st.create merged,
        [.onStart, .onFailure] ++
          (if job.data.attempts ≤ fa then [.onFailed, .onComplete none] else []))

/-- The scheduler's two-state status. -/
inductive Status where
  | active
  | inactive
deriving DecidableEq

/-- The scheduler state: the storage handle, the run-loop status, and the
one-shot `executeFailedJobsOnStart` flag. -/
structure QState where
  store : Store
  status : Status
  executeFailedJobsOnStart : Bool
deriving DecidableEq

/-- The options object of `createJob`; absent fields are `none`. -/
structure JobOptions where
  timeout : Option Int := none
  attempts : Option Int := none
  priority : Option Int := none
deriving DecidableEq

/-- JS `o < 0` where `o` may be `undefined` (`undefined < 0` is false). -/
def ltZero (o : Option Int) : Bool :=
  match o with
  | none => false
  | some v => decide (v < 0)

/-- JS `o || d` on a possibly-absent number: absent or `0` (falsy) gives the
default. -/
def jsOr (o : Option Int) (d : Int) : Int :=
  match o with
  | none => d
  | some v => if v = 0 then d else v

/-- JS `payload.id || uuid.v4()`: an absent or empty (falsy) caller id falls
back to the generated one. -/
def jsIdOr (o : Option String) (generated : String) : String :=
  match o with
  | none => generated
  | some s => if s = "" then generated else s

/-- JS `(options.timeout >= 0) ? options.timeout : 25000`
(`undefined >= 0` is false). -/
def timeoutOrDefault (o : Option Int) : Int :=
  match o with
  | none => 25000
  | some v => if 0 ≤ v then v else 25000

/-- `Queue.createJob(name, payload, options)`: validate (`!name`, then
`options.timeout < 0 || options.attempts < 0`), consume the one-shot
`executeFailedJobsOnStart` flag by resetting failed jobs, then persist the
new record.  A thrown validation error leaves the state untouched (both
throws precede every store mutation).  `payloadId` is `payload.id`,
`generatedId` the `uuid.v4()` value, `payloadStr` the serialized payload,
`now` the `new Date()` timestamp.  The auto-start step (`startQueue`) is
the run loop, modelled separately by `start`. -/
def createJob (qs : QState) (name : String) (payloadId : Option String)
    (generatedId : String) (payloadStr : String) (opts : JobOptions)
    (now : Int) : QState × Except String Job :=
  if name = "" then
    (qs, .error "Job name must be supplied.")
  else if ltZero opts.timeout || ltZero opts.attempts then
    (qs, .error "Invalid job option.")
  else
    let qs :=
      if qs.executeFailedJobsOnStart then
        { qs with
          store := qs.store.resetFailedJobs
          executeFailedJobsOnStart := false }
      else qs
    let job : Job :=
      { id := jsIdOr payloadId generatedId
        name := name
        payload := payloadStr
        data := { attempts := jsOr opts.attempts 1 }
        priority := jsOr opts.priority 0
        active := false
        timeout := timeoutOrDefault opts.timeout
        created := now
        failed := none }
    ({ qs with store := qs.store.create job }, .ok job)

/-- One pass of the `do`-`while` body of `Queue.start` (without a lifespan):
select a batch, process every job of the batch (each via `processJob`, with
the handler outcome given by `outcome`), and repeat while the status is
still `active` and the batch was non-empty.  `fuel` bounds the number of
iterations of the embedded loop. -/
def startAux (conc : String → Nat) (outcome : Job → Except String String)
    (now : Int) : Nat → QState → QState
  | 0, qs => qs
  | fuel + 1, qs =>
      let sel := getConcurrentJobs conc qs.store none
      let st' := sel.1.foldl (fun s j => (processJob s j (outcome j) now).1) sel.2
      let qs' := { qs with store := st' }
      if qs'.status = Status.active ∧ sel.1 ≠ [] then
        startAux conc outcome now fuel qs'
      else qs'

/-- `Queue.start()` (no lifespan): if the status is already `active`, return
`false` at once without touching anything; otherwise set the status to
`active`, run the loop, and set the status back to `inactive` when the loop
exits.  The JS function returns `false` early and `undefined` (here `none`)
otherwise. -/
def start (conc : String → Nat) (outcome : Job → Except String String)
    (now : Int) (fuel : Nat) (qs : QState) : Option Bool × QState :=
  if qs.status = Status.active then
    (some false, qs)
  else
    let qs' := startAux conc outcome now fuel { qs with status := Status.active }
    (none, { qs' with status := Status.inactive })

/-! ### Store lemmas -/

/-- Well-formed store: keys are distinct and each record is stored under its
own id.  Every store reachable through the engine operations has this shape
(all writes go through `saveItem st j.id j`). -/
def WFStore (st : Store) : Prop :=
  (st.map Prod.fst).Nodup ∧ ∀ p ∈ st, p.1 = p.2.id

instance (st : Store) : Decidable (WFStore st) := by
  unfold WFStore; infer_instance

theorem find_saveItem_self (st : Store) (k : String) (v : Job) :
    (saveItem st k v).find k = some v := by
  unfold saveItem
  by_cases h : st.any (fun p => p.1 = k)
  · rw [if_pos h]
    induction st with
    | nil => simp at h
    | cons p st ih =>
        by_cases hp : p.1 = k
        · simp [Store.find, List.find?_cons, hp]
        · have h' : st.any (fun p => p.1 = k) := by
            simp only [List.any_cons, Bool.or_eq_true, decide_eq_true_eq] at h
            rcases h with h | h
            · exact absurd h hp
            · exact h
          simp only [List.map_cons, if_neg hp]
          simpa [Store.find, List.find?_cons, hp] using ih h'
  · rw [if_neg h]
    induction st with
    | nil => simp [Store.find]
    | cons p st ih =>
        have hp : ¬ p.1 = k := by
          intro hk
          exact h (by simp [List.any_cons, hk])
        have h' : ¬ st.any (fun p => p.1 = k) := by
          intro hk
          exact h (by simp [List.any_cons, hk])
        simpa [Store.find, List.cons_append, List.find?_cons, hp] using ih h'

theorem find_saveItem_ne (st : Store) (k : String) (v : Job) (k' : String)
    (h : k' ≠ k) : (saveItem st k v).find k' = st.find k' := by
  have hkk : ¬ ((k, v).1 = k') := fun hk => h hk.symm
  unfold saveItem
  by_cases hany : st.any (fun p => p.1 = k)
  · rw [if_pos hany]
    clear hany
    induction st with
    | nil => rfl
    | cons p st ih =>
        simp only [List.map_cons]
        by_cases hp : p.1 = k
        · rw [if_pos hp]
          unfold Store.find
          rw [List.find?_cons_of_neg _ (by simpa using hkk),
            List.find?_cons_of_neg _ (by simp [hp]; exact fun hk => h hk.symm)]
          exact ih
        · rw [if_neg hp]
          by_cases hp' : p.1 = k'
          · unfold Store.find
            rw [List.find?_cons_of_pos _ (by simpa using hp'),
              List.find?_cons_of_pos _ (by simpa using hp')]
          · unfold Store.find
            rw [List.find?_cons_of_neg _ (by simpa using hp'),
              List.find?_cons_of_neg _ (by simpa using hp')]
            exact ih
  · rw [if_neg hany]
    unfold Store.find
    rw [List.find?_append]
    rw [List.find?_cons_of_neg _ (by simpa using hkk)]
    simp

theorem find_create_self (st : Store) (j : Job) :
    (st.create j).find j.id = some j :=
  find_saveItem_self st j.id j

theorem find_create_ne (st : Store) (j : Job) (k : String) (h : k ≠ j.id) :
    (st.create j).find k = st.find k :=
  find_saveItem_ne st j.id j k h

theorem find_saveAll_not_mem (l : List Job) (st : Store) (k : String)
    (hk : ∀ j ∈ l, j.id ≠ k) : (st.saveAll l).find k = st.find k := by
  induction l generalizing st with
  | nil => rfl
  | cons a l ih =>
      have ha : a.id ≠ k := hk a (by simp)
      have : (Store.saveAll st (a :: l)) = Store.saveAll (st.create a) l := rfl
      rw [this, ih (st.create a) (fun j hj => hk j (by simp [hj])),
        find_create_ne st a k (fun h => ha h.symm)]

theorem find_saveAll_mem (l : List Job) :
    ∀ (st : Store) (j : Job), j ∈ l → (l.map Job.id).Nodup →
      (st.saveAll l).find j.id = some j := by
  induction l with
  | nil => intro st j hj _; cases hj
  | cons a l ih =>
      intro st j hj hnd
      rcases List.mem_cons.mp hj with rfl | hj'
      · have hid : ∀ x ∈ l, x.id ≠ j.id := by
          intro x hx hEq
          have := (List.nodup_cons.mp hnd).1
          exact this (hEq ▸ List.mem_map_of_mem Job.id hx)
        have hstep : (Store.saveAll st (j :: l)) = Store.saveAll (st.create j) l := rfl
        rw [hstep, find_saveAll_not_mem l (st.create j) j.id hid, find_create_self]
      · exact ih (st.create a) j hj' (List.nodup_cons.mp hnd).2

theorem length_saveItem_of_any (st : Store) (k : String) (v : Job)
    (h : st.any (fun p => p.1 = k)) : (saveItem st k v).length = st.length := by
  unfold saveItem
  rw [if_pos h, List.length_map]

theorem find_ne_none_iff_any (st : Store) (k : String) :
    st.find k ≠ none ↔ st.any (fun p => p.1 = k) := by
  induction st with
  | nil => simp [Store.find]
  | cons p st ih =>
      by_cases hp : p.1 = k
      · unfold Store.find
        rw [List.find?_cons_of_pos _ (by simpa using hp)]
        simp [List.any_cons, hp]
      · unfold Store.find at ih ⊢
        rw [List.find?_cons_of_neg _ (by simpa using hp)]
        simp only [List.any_cons]
        rw [ih]
        simp [hp]

theorem wf_create (st : Store) (j : Job) (hwf : WFStore st) :
    WFStore (st.create j) := by
  rcases hwf with ⟨hnd, hid⟩
  unfold Store.create saveItem
  by_cases h : st.any (fun p => p.1 = j.id)
  · rw [if_pos h]
    constructor
    · have hkeys : (st.map (fun p => if p.1 = j.id then (j.id, j) else p)).map
          Prod.fst = st.map Prod.fst := by
        rw [List.map_map]
        refine List.map_congr_left ?_
        intro p _
        by_cases hp : p.1 = j.id
        · simp [hp]
        · simp [hp]
      rw [hkeys]; exact hnd
    · intro p hp
      rcases List.mem_map.mp hp with ⟨q, hq, hpq⟩
      by_cases hq' : q.1 = j.id
      · simp only [if_pos hq'] at hpq
        rw [← hpq]
      · simp only [if_neg hq'] at hpq
        exact hpq ▸ hid q hq
  · rw [if_neg h]
    constructor
    · rw [List.map_append, List.nodup_append]
      refine ⟨hnd, List.nodup_singleton _, ?_⟩
      intro a ha hb
      simp only [List.map_cons, List.map_nil, List.mem_singleton] at hb
      rcases List.mem_map.mp ha with ⟨p, hp, hpa⟩
      apply h
      refine List.any_eq_true.mpr ⟨p, hp, ?_⟩
      simp [hpa, hb]
    · intro p hp
      rcases List.mem_append.mp hp with hp' | hp'
      · exact hid p hp'
      · simp only [List.mem_singleton] at hp'
        rw [hp']

theorem objects_ids_eq_keys (st : Store) (hwf : WFStore st) :
    st.objects.map Job.id = st.map Prod.fst := by
  unfold Store.objects
  rw [List.map_map]
  refine List.map_congr_left ?_
  intro p hp
  exact (hwf.2 p hp).symm

theorem objects_ids_nodup (st : Store) (hwf : WFStore st) :
    (st.objects.map Job.id).Nodup := by
  rw [objects_ids_eq_keys st hwf]; exact hwf.1

theorem mem_objects_find (st : Store) (j : Job) (hwf : WFStore st)
    (hj : j ∈ st.objects) : st.find j.id = some j := by
  induction st with
  | nil => cases hj
  | cons p st ih =>
      have hwf' : WFStore st :=
        ⟨(List.nodup_cons.mp hwf.1).2, fun q hq => hwf.2 q (by simp [hq])⟩
      rcases List.mem_cons.mp hj with rfl | hj'
      · have : p.1 = p.2.id := hwf.2 p (by simp)
        simp [Store.find, List.find?_cons, this]
      · by_cases hp : p.1 = j.id
        · exfalso
          have hk : j.id ∈ st.map Prod.fst := by
            rcases List.mem_map.mp hj' with ⟨q, hq, hqj⟩
            have := hwf.2 q (by simp [hq])
            exact List.mem_map.mpr ⟨q, hq, by rw [this, hqj]⟩
          exact (List.nodup_cons.mp hwf.1).1 (hp ▸ hk)
        · simpa [Store.find, List.find?_cons, hp] using ih hwf' hj'

/-! ### Selection lemmas -/

theorem mem_findNextJobs_none (st : Store) (j : Job) :
    j ∈ st.findNextJobs none ↔
      j ∈ st.objects ∧ j.active = false ∧ j.failed = none := by
  unfold Store.findNextJobs
  rw [List.mem_insertionSort, List.mem_filter]
  simp [Bool.and_eq_true, Bool.not_eq_true', and_assoc]

theorem mem_findNextJobs_some (st : Store) (j : Job) (b : Int) :
    j ∈ st.findNextJobs (some b) ↔
      j ∈ st.objects ∧ j.active = false ∧ j.failed = none ∧
        0 < j.timeout ∧ j.timeout < b := by
  unfold Store.findNextJobs
  rw [List.mem_insertionSort, List.mem_filter]
  simp [Bool.and_eq_true, Bool.not_eq_true', and_assoc]

theorem sorted_findNextJobs (st : Store) (b : Option Int) :
    List.Sorted jobLE (st.findNextJobs b) := by
  unfold Store.findNextJobs
  rcases b with _ | bv <;> exact List.sorted_insertionSort jobLE _

theorem nodup_ids_findNextJobs (st : Store) (b : Option Int) (hwf : WFStore st) :
    ((st.findNextJobs b).map Job.id).Nodup := by
  have hobj := objects_ids_nodup st hwf
  unfold Store.findNextJobs
  rcases b with _ | bv <;>
    exact (List.Perm.nodup_iff (List.Perm.map Job.id
      (List.perm_insertionSort jobLE _))).mpr
      ((List.Sublist.map Job.id (List.filter_sublist _)).nodup hobj)

/-- The batch taken when the candidate list starts with `hd`. -/
def takeBatch (conc : String → Nat) (hd : Job) (tl : List Job) : List Job :=
  (((hd :: tl).filter (fun j => j.name = hd.name)).take (conc hd.name)).map
    (fun j => { j with active := true })

theorem getConcurrentJobs_nil (conc : String → Nat) (st : Store) (lr : Option Int)
    (h : st.findNextJobs (lr.map (fun l => l - 499)) = []) :
    getConcurrentJobs conc st lr = ([], st) := by
  unfold getConcurrentJobs
  simp only [h]

theorem getConcurrentJobs_cons (conc : String → Nat) (st : Store) (lr : Option Int)
    (hd : Job) (tl : List Job)
    (h : st.findNextJobs (lr.map (fun l => l - 499)) = hd :: tl) :
    getConcurrentJobs conc st lr =
      (takeBatch conc hd tl, st.saveAll (takeBatch conc hd tl)) := by
  unfold getConcurrentJobs
  simp only [h]
  simp [Store.markActive, takeBatch]

theorem find_deleteJob_self (st : Store) (j : Job) :
    (st.deleteJob j).find j.id = none := by
  unfold Store.deleteJob Store.find
  have hnone : List.find? (fun p => decide (p.1 = j.id))
      (List.filter (fun p => !decide (p.1 = j.id)) st) = none := by
    rw [List.find?_eq_none]
    intro p hp
    have := (List.mem_filter.mp hp).2
    simp only [Bool.not_eq_true', decide_eq_false_iff_not] at this
    simpa using this
  rw [hnone]
  rfl

theorem find_deleteJob_ne (st : Store) (j : Job) (k : String) (h : k ≠ j.id) :
    (st.deleteJob j).find k = st.find k := by
  unfold Store.deleteJob Store.find
  induction st with
  | nil => rfl
  | cons p st ih =>
      by_cases hp : p.1 = j.id
      · rw [List.filter_cons_of_neg (by simpa using hp),
          List.find?_cons_of_neg _ (by simp [hp]; exact fun hk => h hk.symm)]
        exact ih
      · rw [List.filter_cons_of_pos (by simpa using hp)]
        by_cases hp' : p.1 = k
        · rw [List.find?_cons_of_pos _ (by simpa using hp'),
            List.find?_cons_of_pos _ (by simpa using hp')]
        · rw [List.find?_cons_of_neg _ (by simpa using hp'),
            List.find?_cons_of_neg _ (by simpa using hp')]
          exact ih

theorem mem_objects_deleteJob (st : Store) (job : Job) (hwf : WFStore st) :
    ∀ j ∈ (st.deleteJob job).objects, j.id ≠ job.id := by
  intro j hj
  rcases List.mem_map.mp hj with ⟨p, hp, hpj⟩
  have hpf := List.mem_filter.mp hp
  have hk : p.1 ≠ job.id := by
    have := hpf.2
    simp only [Bool.not_eq_true', decide_eq_false_iff_not] at this
    simpa using this
  have hid : p.1 = p.2.id := hwf.2 p hpf.1
  rw [← hpj, ← hid]
  exact hk

theorem incFailedAttempts_eq (o : Option Int) :
    incFailedAttempts o = o.getD 0 + 1 := by
  rcases o with _ | n
  · rfl
  · unfold incFailedAttempts
    by_cases h : n = 0 <;> simp [h]

theorem appendError_eq (o : Option (List String)) (msg : String) :
    appendError o msg = o.getD [] ++ [msg] := by
  rcases o with _ | l <;> rfl

/-- The store update performed by the failure branch of `processJob`,
spelled out. -/
theorem processJob_error_store (st : Store) (job : Job) (msg : String)
    (now : Int) :
    (processJob st job (.error msg) now).1 =
      st.create
        { job with
          data := { attempts := job.data.attempts
                    failedAttempts := some (incFailedAttempts job.data.failedAttempts)
                    errors := some (appendError job.data.errors msg) }
          active := false
          failed := if job.data.attempts ≤ incFailedAttempts job.data.failedAttempts
                    then some now else job.failed } := rfl

/-- The callbacks fired by the failure branch of `processJob`, spelled out. -/
theorem processJob_error_events (st : Store) (job : Job) (msg : String)
    (now : Int) :
    (processJob st job (.error msg) now).2 =
      [Event.onStart, Event.onFailure] ++
        (if job.data.attempts ≤ incFailedAttempts job.data.failedAttempts
          then [Event.onFailed, Event.onComplete none] else []) := rfl

theorem takeBatch_ids (conc : String → Nat) (hd : Job) (tl : List Job) :
    (takeBatch conc hd tl).map Job.id =
      (((hd :: tl).filter (fun j => j.name = hd.name)).take
        (conc hd.name)).map Job.id := by
  unfold takeBatch
  rw [List.map_map]
  exact List.map_congr_left (fun j _ => rfl)

/-! ### Sample data for witnesses -/

/-- A sample job record used by the concrete witnesses below. -/
def mkJob (i nm : String) (pr cr : Int) (tmo : Int := 25000) (act : Bool := false)
    (fl : Option Int := none) (att : Int := 1) : Job :=
  { id := i, name := nm, payload := "{}", data := { attempts := att },
    priority := pr, active := act, timeout := tmo, created := cr, failed := fl }

/-- A sample store: three eligible jobs (two of name `w`, one of name `v`),
one active job and one terminally failed job. -/
def sampleStore : Store :=
  [("a", mkJob "a" "w" 0 10), ("b", mkJob "b" "w" 5 20), ("c", mkJob "c" "v" 5 15),
   ("d", mkJob "d" "w" 5 5 25000 true), ("e", mkJob "e" "w" 9 1 25000 false (some 3))]

/-- A sample scheduler state over `sampleStore`, not running. -/
def sampleQState : QState :=
  { store := sampleStore, status := Status.inactive, executeFailedJobsOnStart := false }

/-! ### Claims -/

/-- C1: for every store state and every bound with which `getConcurrentJobs`
queries it, the candidate list produced by `findNextJobs` contains only jobs
with `active = false` and `failed = null`, is ordered by priority descending
with creation time ascending as the tie-break, and consequently no job
returned by `getConcurrentJobs` was active or terminally failed when
selected (in particular no returned job carries a non-null `failed`). -/
theorem findNextJobs_candidates_eligible_and_ordered (st : Store)
    (b : Option Int) (conc : String → Nat) (lr : Option Int) :
    (∀ j ∈ st.findNextJobs b, j.active = false ∧ j.failed = none) ∧
    List.Sorted jobLE (st.findNextJobs b) ∧
    (∀ j ∈ (getConcurrentJobs conc st lr).1, j.failed = none) := by
  refine ⟨fun j hj => ?_, sorted_findNextJobs st b, fun j hj => ?_⟩
  · rcases b with _ | bv
    · have := (mem_findNextJobs_none st j).mp hj
      exact ⟨this.2.1, this.2.2⟩
    · have := (mem_findNextJobs_some st j bv).mp hj
      exact ⟨this.2.1, this.2.2.1⟩
  · cases hsel : st.findNextJobs (lr.map (fun l => l - 499)) with
    | nil =>
        rw [getConcurrentJobs_nil conc st lr hsel] at hj
        cases hj
    | cons hd tl =>
        rw [getConcurrentJobs_cons conc st lr hd tl hsel] at hj
        simp only [takeBatch, List.mem_map] at hj
        rcases hj with ⟨j', hj', rfl⟩
        have hj'' : j' ∈ st.findNextJobs (lr.map (fun l => l - 499)) := by
          rw [hsel]
          exact List.mem_of_mem_filter (List.mem_of_mem_take hj')
        rcases lr with _ | L
        · exact ((mem_findNextJobs_none st j').mp hj'').2.2
        · exact ((mem_findNextJobs_some st j' (L - 499)).mp hj'').2.2.1

/-- Witness for C1 at the sample store: the head candidate is eligible and
the computed candidate list is sorted. -/
theorem findNextJobs_candidates_witness :
    ((mkJob "c" "v" 5 15).active = false ∧ (mkJob "c" "v" 5 15).failed = none) ∧
    List.Sorted jobLE (sampleStore.findNextJobs none) :=
  ⟨(findNextJobs_candidates_eligible_and_ordered sampleStore none (fun _ => 1)
      none).1 (mkJob "c" "v" 5 15) (by decide),
   (findNextJobs_candidates_eligible_and_ordered sampleStore none (fun _ => 1)
      none).2.1⟩

/-- C5: with remaining lifespan `L`, every selected job has a strictly
positive timeout at most `L - 500` (the store is queried with the strict
bound `timeout < L - 499`); a job with `timeout = 0` is never selected under
a lifespan; without a lifespan, the timeout bound is not applied (every
inactive, unfailed stored job is a candidate regardless of its timeout). -/
theorem lifespan_timeout_bound (conc : String → Nat) (st : Store) (L : Int) :
    (∀ j ∈ st.findNextJobs (some (L - 499)), 0 < j.timeout ∧ j.timeout ≤ L - 500) ∧
    (∀ j ∈ (getConcurrentJobs conc st (some L)).1,
        0 < j.timeout ∧ j.timeout ≤ L - 500) ∧
    (∀ j : Job, j.timeout = 0 → j ∉ (getConcurrentJobs conc st (some L)).1) ∧
    (∀ j ∈ st.objects, j.active = false → j.failed = none →
        j ∈ st.findNextJobs none) := by
  have hcand : ∀ j ∈ st.findNextJobs (some (L - 499)),
      0 < j.timeout ∧ j.timeout ≤ L - 500 := by
    intro j hj
    have := (mem_findNextJobs_some st j (L - 499)).mp hj
    exact ⟨this.2.2.2.1, by omega⟩
  have hbatch : ∀ j ∈ (getConcurrentJobs conc st (some L)).1,
      0 < j.timeout ∧ j.timeout ≤ L - 500 := by
    intro j hj
    cases hsel : st.findNextJobs ((some L).map (fun l => l - 499)) with
    | nil =>
        rw [getConcurrentJobs_nil conc st (some L) hsel] at hj
        cases hj
    | cons hd tl =>
        rw [getConcurrentJobs_cons conc st (some L) hd tl hsel] at hj
        simp only [takeBatch, List.mem_map] at hj
        rcases hj with ⟨j', hj', rfl⟩
        have hj'' : j' ∈ st.findNextJobs (some (L - 499)) := by
          have : (some L).map (fun l => l - 499) = some (L - 499) := rfl
          rw [← this, hsel]
          exact List.mem_of_mem_filter (List.mem_of_mem_take hj')
        exact hcand j' hj''
  refine ⟨hcand, hbatch, fun j hj0 hj => ?_, fun j hj ha hf => ?_⟩
  · have := (hbatch j hj).1
    omega
  · exact (mem_findNextJobs_none st j).mpr ⟨hj, ha, hf⟩

/-- A one-record store holding an eligible job with `timeout = 0`. -/
def zeroTimeoutStore : Store := [("z", mkJob "z" "w" 0 1 0)]

/-- Witness for C5 at the sample store with lifespan 30000: the selected
head job has a positive timeout within the budget, and without a lifespan an
eligible zero-timeout job is a candidate. -/
theorem lifespan_timeout_bound_witness :
    (0 < (mkJob "c" "v" 5 15).timeout ∧
      (mkJob "c" "v" 5 15).timeout ≤ (30000 : Int) - 500) ∧
    mkJob "z" "w" 0 1 0 ∈ zeroTimeoutStore.findNextJobs none :=
  ⟨(lifespan_timeout_bound (fun _ => 1) sampleStore 30000).1 (mkJob "c" "v" 5 15)
      (by decide),
   (lifespan_timeout_bound (fun _ => 1) zeroTimeoutStore 30000).2.2.2
      (mkJob "z" "w" 0 1 0) (by decide) (by decide) (by decide)⟩

/-- C7: `createJob` rejects an empty name, a negative `options.timeout`, and
a negative `options.attempts` with a synchronously thrown error, and in each
such case the scheduler state (in particular the store) is unchanged — both
throws precede every store mutation. -/
theorem createJob_validation_rejects (qs : QState) (name : String)
    (pid : Option String) (gid pstr : String) (opts : JobOptions) (now : Int)
    (h : name = "" ∨ (∃ t, opts.timeout = some t ∧ t < 0) ∨
         (∃ a, opts.attempts = some a ∧ a < 0)) :
    ∃ e, createJob qs name pid gid pstr opts now = (qs, Except.error e) := by
  unfold createJob
  rcases h with rfl | ⟨t, ht, htn⟩ | ⟨a, ha, han⟩
  · exact ⟨"Job name must be supplied.", by simp⟩
  · by_cases hn : name = ""
    · exact ⟨"Job name must be supplied.", by simp [hn]⟩
    · refine ⟨"Invalid job option.", ?_⟩
      rw [if_neg hn, if_pos]
      simp [ltZero, ht, htn]
  · by_cases hn : name = ""
    · exact ⟨"Job name must be supplied.", by simp [hn]⟩
    · refine ⟨"Invalid job option.", ?_⟩
      rw [if_neg hn, if_pos]
      simp [ltZero, ha, han]

/-- Witness for C7: `createJob('')` and `createJob('x', {}, {timeout: -1})`
both fail, leaving the state untouched. -/
theorem createJob_validation_rejects_witness :
    (∃ e, createJob sampleQState "" none "g" "{}" {} 0 =
        (sampleQState, Except.error e)) ∧
    (∃ e, createJob sampleQState "x" none "g" "{}"
        { timeout := some (-1) } 0 = (sampleQState, Except.error e)) :=
  ⟨createJob_validation_rejects sampleQState "" none "g" "{}" {} 0 (Or.inl rfl),
   createJob_validation_rejects sampleQState "x" none "g" "{}"
      { timeout := some (-1) } 0
      (Or.inr (Or.inl ⟨-1, rfl, by norm_num⟩))⟩

/-- C9: calling `start()` while the scheduler is already `active` returns
`false` immediately and leaves the state untouched (no second loop);
otherwise `start()` runs the loop and finishes with the status `inactive`,
returning the JS `undefined` (`none`). -/
theorem start_guard_and_termination (conc : String → Nat)
    (outcome : Job → Except String String) (now : Int) (fuel : Nat)
    (qs : QState) :
    (qs.status = Status.active →
        start conc outcome now fuel qs = (some false, qs)) ∧
    (qs.status = Status.inactive →
        (start conc outcome now fuel qs).1 = none ∧
        (start conc outcome now fuel qs).2.status = Status.inactive) := by
  constructor
  · intro h
    unfold start
    rw [if_pos h]
  · intro h
    unfold start
    rw [if_neg (by rw [h]; intro hc; cases hc)]
    exact ⟨rfl, rfl⟩

/-- Witness for C9: a running scheduler refuses a second `start`; an idle
scheduler over the sample store runs and ends inactive. -/
theorem start_guard_and_termination_witness :
    start (fun _ => 1) (fun _ => Except.ok "") 0 3
        { sampleQState with status := Status.active } =
      (some false, { sampleQState with status := Status.active }) ∧
    (start (fun _ => 1) (fun _ => Except.ok "") 0 3 sampleQState).2.status =
      Status.inactive :=
  ⟨(start_guard_and_termination (fun _ => 1) (fun _ => Except.ok "") 0 3
      { sampleQState with status := Status.active }).1 rfl,
   ((start_guard_and_termination (fun _ => 1) (fun _ => Except.ok "") 0 3
      sampleQState).2 rfl).2⟩

/-- C2: for a non-empty candidate list headed by `hd`, `getConcurrentJobs`
returns at most `getConcurrency(hd.name)` jobs, all named `hd.name`,
preserving the candidate order (their id sequence is a sublist of the
candidates' id sequence), and marks exactly the returned jobs `active=true`
in the store (every other key is untouched); for an empty candidate list it
returns the empty batch and leaves the store unchanged. -/
theorem batch_shape_and_marking (conc : String → Nat) (st : Store)
    (lr : Option Int) (hwf : WFStore st) :
    (st.findNextJobs (lr.map (fun l => l - 499)) = [] →
        getConcurrentJobs conc st lr = ([], st)) ∧
    (∀ hd tl, st.findNextJobs (lr.map (fun l => l - 499)) = hd :: tl →
        (getConcurrentJobs conc st lr).1.length ≤ conc hd.name ∧
        (∀ j ∈ (getConcurrentJobs conc st lr).1,
            j.name = hd.name ∧ j.active = true ∧
            (getConcurrentJobs conc st lr).2.find j.id = some j) ∧
        ((getConcurrentJobs conc st lr).1.map Job.id).Sublist
          ((hd :: tl).map Job.id) ∧
        (∀ k, (∀ j ∈ (getConcurrentJobs conc st lr).1, j.id ≠ k) →
            (getConcurrentJobs conc st lr).2.find k = st.find k)) := by
  refine ⟨getConcurrentJobs_nil conc st lr, fun hd tl h => ?_⟩
  rw [getConcurrentJobs_cons conc st lr hd tl h]
  have hids : (takeBatch conc hd tl).map Job.id =
      (((hd :: tl).filter (fun j => j.name = hd.name)).take
        (conc hd.name)).map Job.id := takeBatch_ids conc hd tl
  have hsub : ((takeBatch conc hd tl).map Job.id).Sublist
      ((hd :: tl).map Job.id) := by
    rw [hids]
    exact List.Sublist.map Job.id
      ((List.take_sublist _ _).trans (List.filter_sublist _))
  have hnd : ((takeBatch conc hd tl).map Job.id).Nodup := by
    refine hsub.nodup ?_
    have := nodup_ids_findNextJobs st (lr.map (fun l => l - 499)) hwf
    rwa [h] at this
  refine ⟨?_, fun j hj => ?_, hsub, fun k hk => ?_⟩
  · unfold takeBatch
    rw [List.length_map]
    exact List.length_take_le _ _
  · have hj2 : j ∈ (((hd :: tl).filter (fun j => j.name = hd.name)).take
        (conc hd.name)).map (fun j => { j with active := true }) := hj
    rcases List.mem_map.mp hj2 with ⟨j', hj', rfl⟩
    have hname : j'.name = hd.name := by
      have := (List.mem_filter.mp (List.mem_of_mem_take hj')).2
      simpa using this
    refine ⟨hname, rfl, ?_⟩
    exact find_saveAll_mem (takeBatch conc hd tl) st _ hj hnd
  · exact find_saveAll_not_mem (takeBatch conc hd tl) st k hk

/-- Witness for C2 at the sample store with concurrency 2: the candidate
list is `[c, b, a]`, so the batch is the lone `v`-job `c`, which ends marked
active in the store. -/
theorem batch_shape_and_marking_witness :
    (getConcurrentJobs (fun _ => 2) sampleStore none).1.length ≤ 2 ∧
    (getConcurrentJobs (fun _ => 2) sampleStore none).2.find "c" =
      some { mkJob "c" "v" 5 15 with active := true } := by
  have hsel : sampleStore.findNextJobs ((none : Option Int).map (fun l => l - 499)) =
      mkJob "c" "v" 5 15 :: [mkJob "b" "w" 5 20, mkJob "a" "w" 0 10] := by decide
  have hpart := (batch_shape_and_marking (fun _ => 2) sampleStore none
    (by decide)).2 (mkJob "c" "v" 5 15) [mkJob "b" "w" 5 20, mkJob "a" "w" 0 10] hsel
  refine ⟨hpart.1, ?_⟩
  have hmem : { mkJob "c" "v" 5 15 with active := true } ∈
      (getConcurrentJobs (fun _ => 2) sampleStore none).1 := by decide
  have := (hpart.2.1 _ hmem).2.2
  simpa using this

/-- C3: on a failed handler execution, `processJob` re-persists the job
under its id with `failedAttempts` incremented (1 when previously absent),
the error message appended to `errors`, `active=false`, and `failed` set to
a non-null timestamp exactly when the incremented counter reaches
`attempts`; other keys are untouched; the callbacks fired are `onStart`,
`onFailure`, and — only when the budget is exhausted by this call —
`onFailed` then `onComplete` with no result; `onSuccess` never fires. -/
theorem processJob_failure_bookkeeping (st : Store) (job : Job) (msg : String)
    (now : Int) (hfail : job.failed = none) :
    ∃ m : Job,
      (processJob st job (.error msg) now).1.find job.id = some m ∧
      m.id = job.id ∧ m.name = job.name ∧ m.payload = job.payload ∧
      m.active = false ∧
      m.data.attempts = job.data.attempts ∧
      m.data.failedAttempts = some (job.data.failedAttempts.getD 0 + 1) ∧
      m.data.errors = some (job.data.errors.getD [] ++ [msg]) ∧
      (m.failed ≠ none ↔ job.data.attempts ≤ job.data.failedAttempts.getD 0 + 1) ∧
      (job.data.attempts ≤ job.data.failedAttempts.getD 0 + 1 →
          m.failed = some now) ∧
      (∀ k, k ≠ job.id →
          (processJob st job (.error msg) now).1.find k = st.find k) ∧
      (processJob st job (.error msg) now).2 =
        [Event.onStart, Event.onFailure] ++
          (if job.data.attempts ≤ job.data.failedAttempts.getD 0 + 1
            then [Event.onFailed, Event.onComplete none] else []) ∧
      (∀ s, Event.onSuccess s ∉ (processJob st job (.error msg) now).2) := by
  rw [processJob_error_store st job msg now] at *
  refine ⟨_, find_create_self st _, rfl, rfl, rfl, rfl, rfl, ?_, ?_, ?_, ?_, ?_, ?_, ?_⟩
  · simp [incFailedAttempts_eq]
  · simp [appendError_eq]
  · rw [incFailedAttempts_eq, hfail]
    by_cases hc : job.data.attempts ≤ job.data.failedAttempts.getD 0 + 1
    · simp [hc]
    · simp [hc]
  · intro hc
    rw [incFailedAttempts_eq]
    simp [hc]
  · intro k hk
    exact find_create_ne st _ k (by simpa using hk)
  · rw [processJob_error_events st job msg now, incFailedAttempts_eq]
  · intro s
    rw [processJob_error_events st job msg now]
    by_cases hc : job.data.attempts ≤ incFailedAttempts job.data.failedAttempts
    · simp [hc]
    · simp [hc]

/-- Witness for C3: a first failure of a one-attempt job in the sample store
exhausts the budget, so the merged record is terminally failed. -/
theorem processJob_failure_bookkeeping_witness :
    ∃ m : Job,
      (processJob sampleStore (mkJob "a" "w" 0 10) (.error "boom") 99).1.find "a" =
        some m ∧
      m.id = "a" ∧ m.name = "w" ∧ m.payload = "{}" ∧
      m.active = false ∧
      m.data.attempts = 1 ∧
      m.data.failedAttempts = some 1 ∧
      m.data.errors = some ["boom"] := by
  rcases processJob_failure_bookkeeping sampleStore (mkJob "a" "w" 0 10) "boom" 99
    (by decide) with ⟨m, hfind, hid, hname, hp, ha, hatt, hfa, herr, _⟩
  exact ⟨m, hfind, hid, hname, hp, ha, hatt, hfa, herr⟩

/-- C8: on a successful handler execution, `processJob` deletes the job
record — its key vanishes from the store and no record with its id remains
in `objects()` — leaves every other record untouched (so all failure
bookkeeping elsewhere is unchanged), and fires `onSuccess` then
`onComplete`, both carrying the handler result. -/
theorem processJob_success_deletes (st : Store) (job : Job) (r : String)
    (now : Int) (hwf : WFStore st) :
    (processJob st job (.ok r) now).2 =
      [Event.onStart, Event.onSuccess r, Event.onComplete (some r)] ∧
    (processJob st job (.ok r) now).1.find job.id = none ∧
    (∀ j ∈ (processJob st job (.ok r) now).1.objects, j.id ≠ job.id) ∧
    (∀ k, k ≠ job.id → (processJob st job (.ok r) now).1.find k = st.find k) := by
  refine ⟨rfl, find_deleteJob_self st job, ?_, ?_⟩
  · exact mem_objects_deleteJob st job hwf
  · intro k hk
    exact find_deleteJob_ne st job k hk

/-- Witness for C8: successfully processing job `a` of the sample store
removes its record and leaves job `b` untouched. -/
theorem processJob_success_deletes_witness :
    (processJob sampleStore (mkJob "a" "w" 0 10) (.ok "done") 99).1.find "a" =
      none ∧
    (processJob sampleStore (mkJob "a" "w" 0 10) (.ok "done") 99).1.find "b" =
      sampleStore.find "b" :=
  ⟨(processJob_success_deletes sampleStore (mkJob "a" "w" 0 10) "done" 99
      (by decide)).2.1,
   (processJob_success_deletes sampleStore (mkJob "a" "w" 0 10) "done" 99
      (by decide)).2.2.2 "b" (by decide)⟩

theorem jsOr_zero (o : Option Int) : jsOr o 0 = o.getD 0 := by
  rcases o with _ | v
  · rfl
  · unfold jsOr
    by_cases h : v = 0 <;> simp [h]

theorem create_length_of_find (st : Store) (j : Job) (h : st.find j.id ≠ none) :
    (st.create j).length = st.length :=
  length_saveItem_of_any st j.id j ((find_ne_none_iff_any st j.id).mp h)

/-- C6 counterexample: `createJob` with an explicit `attempts = 0` persists
`attemptsAllowed = 1`, whereas `options.attempts ?? 1` as claimed would give
`0` (`Queue.createJob` uses the falsy-coalescing `options.attempts || 1`). -/
theorem createJob_attempts_zero_cex :
    (match (createJob sampleQState "w" none "g" "{}"
        { attempts := some (0 : Int) } 50).2 with
      | Except.ok j => j.data.attempts
      | Except.error _ => (0 : Int)) = 1 ∧ (1 : Int) ≠ 0 := by
  exact ⟨by decide, by decide⟩

/-- C6 amended: for every valid `createJob` call, the persisted record has
`priority = options.priority ?? 0`, `timeoutMs = options.timeout ?? 25000`
(explicit values ≥ 0 honored, including 0), `active = false`,
`createdAt = now`, `failed = null` and empty error/attempt counters as
claimed, but `attemptsAllowed = options.attempts || 1`: an explicit
`attempts = 0` falls back to 1 (only nonzero explicit values are kept). -/
theorem createJob_persisted_defaults (qs : QState) (name : String)
    (pid : Option String) (gid pstr : String) (opts : JobOptions) (now : Int)
    (hname : ¬ name = "")
    (ht : ∀ t, opts.timeout = some t → 0 ≤ t)
    (ha : ∀ a, opts.attempts = some a → 0 ≤ a) :
    ∃ qs' j, createJob qs name pid gid pstr opts now = (qs', Except.ok j) ∧
      j.name = name ∧ j.payload = pstr ∧
      j.priority = opts.priority.getD 0 ∧
      (opts.attempts = none → j.data.attempts = 1) ∧
      (opts.attempts = some 0 → j.data.attempts = 1) ∧
      (∀ a, opts.attempts = some a → ¬ a = 0 → j.data.attempts = a) ∧
      j.timeout = opts.timeout.getD 25000 ∧
      j.active = false ∧ j.created = now ∧ j.failed = none ∧
      j.data.failedAttempts = none ∧ j.data.errors = none ∧
      qs'.store.find j.id = some j := by
  unfold createJob
  rw [if_neg hname]
  have h1 : ltZero opts.timeout = false := by
    rcases hto : opts.timeout with _ | t
    · rfl
    · have := ht t hto
      simp only [ltZero, decide_eq_false_iff_not]
      omega
  have h2 : ltZero opts.attempts = false := by
    rcases hao : opts.attempts with _ | a
    · rfl
    · have := ha a hao
      simp only [ltZero, decide_eq_false_iff_not]
      omega
  rw [if_neg (by simp [h1, h2])]
  refine ⟨_, _, rfl, rfl, rfl, jsOr_zero opts.priority, ?_, ?_, ?_, ?_, rfl, rfl,
    rfl, rfl, rfl, find_create_self _ _⟩
  · intro h
    simp [jsOr, h]
  · intro h
    simp [jsOr, h]
  · intro a h hne
    simp [jsOr, h, hne]
  · rcases hto : opts.timeout with _ | t
    · rfl
    · have := ht t hto
      simp [timeoutOrDefault, this]

/-- Witness for the amended C6: a call with all options omitted persists the
documented defaults, and one with `timeout = 0` keeps the explicit zero. -/
theorem createJob_persisted_defaults_witness :
    (∃ qs' j, createJob sampleQState "w" none "g" "{}" {} 50 =
        (qs', Except.ok j) ∧ j.name = "w" ∧ j.payload = "{}" ∧
        j.priority = 0 ∧ (({} : JobOptions).attempts = none →
          j.data.attempts = 1) ∧ (({} : JobOptions).attempts = some 0 →
          j.data.attempts = 1) ∧ (∀ a, ({} : JobOptions).attempts = some a →
          ¬ a = 0 → j.data.attempts = a) ∧
        j.timeout = 25000 ∧ j.active = false ∧ j.created = 50 ∧
        j.failed = none ∧ j.data.failedAttempts = none ∧
        j.data.errors = none ∧ qs'.store.find j.id = some j) :=
  createJob_persisted_defaults sampleQState "w" none "g" "{}" {} 50
    (by decide) (fun t h => by cases h) (fun a h => by cases h)

/-- C10: the store is keyed by id — `create` on a well-formed store keeps it
well-formed, `objects()` never holds two records with one id, creating over
an existing id replaces the record without growing the store, and other
keys are untouched; consequently `createJob` with `payload.id` equal to an
existing job's id overwrites that record rather than inserting a new one. -/
theorem store_create_keyed_by_id (st : Store) (j : Job) (hwf : WFStore st) :
    WFStore (st.create j) ∧
    ((st.create j).objects.map Job.id).Nodup ∧
    (st.find j.id ≠ none → (st.create j).length = st.length) ∧
    (st.create j).find j.id = some j ∧
    (∀ k, k ≠ j.id → (st.create j).find k = st.find k) ∧
    (∀ (qs : QState) nm i gid pstr now, qs.store = st →
        qs.executeFailedJobsOnStart = false → ¬ nm = "" → ¬ i = "" →
        st.find i ≠ none →
        ∃ jn, (createJob qs nm (some i) gid pstr {} now).2 = Except.ok jn ∧
          jn.id = i ∧
          (createJob qs nm (some i) gid pstr {} now).1.store.find i = some jn ∧
          (createJob qs nm (some i) gid pstr {} now).1.store.length =
            st.length) := by
  refine ⟨wf_create st j hwf, objects_ids_nodup _ (wf_create st j hwf),
    create_length_of_find st j, find_create_self st j,
    fun k hk => find_create_ne st j k hk, ?_⟩
  intro qs nm i gid pstr now hqs hflag hnm hi hfind
  unfold createJob
  rw [if_neg hnm, if_neg (by simp [ltZero]), hflag]
  simp only [Bool.false_eq_true, if_false]
  have hid : jsIdOr (some i) gid = i := by
    simp [jsIdOr, hi]
  refine ⟨_, rfl, hid, ?_, ?_⟩
  · rw [hqs, show (jsIdOr (some i) gid) = i from hid] at *
    have := find_create_self st
      { id := i, name := nm, payload := pstr,
        data := { attempts := jsOr (JobOptions.mk none none none).attempts 1 },
        priority := jsOr (JobOptions.mk none none none).priority 0,
        active := false,
        timeout := timeoutOrDefault (JobOptions.mk none none none).timeout,
        created := now, failed := none }
    simpa [hid] using this
  · rw [hqs]
    refine create_length_of_find st _ ?_
    simpa [hid] using hfind

/-- Witness for C10 at the sample store: re-creating id `e` replaces the
failed record in place. -/
theorem store_create_keyed_by_id_witness :
    (sampleStore.create (mkJob "e" "x" 1 2)).length = sampleStore.length ∧
    (sampleStore.create (mkJob "e" "x" 1 2)).find "e" =
      some (mkJob "e" "x" 1 2) := by
  have h := store_create_keyed_by_id sampleStore (mkJob "e" "x" 1 2) (by decide)
  exact ⟨h.2.2.1 (by decide), h.2.2.2.1⟩

/-- C4 counterexample: the terminally failed record `e` (`failed = some 3`)
of the sample store has its `failed` marker erased by `createJob` reusing
id `e` — an engine operation other than `resetFailedJobs` — refuting the
claim that only `resetFailedJobs` ever clears `failed`. -/
theorem failed_cleared_by_createJob_cex :
    Option.map Job.failed (sampleStore.find "e") = some (some 3) ∧
    Option.map Job.failed
        ((createJob sampleQState "w" (some "e") "g" "{}" {} 50).1.store.find "e") =
      some none := by
  exact ⟨by decide, by decide⟩

/-- C4 amended: a failure that exhausts the attempt budget marks the record
with a non-null `failed`; a job with non-null `failed` is excluded from
every `findNextJobs` result; neither `markActive` (applied, as the engine
does, to jobs read from the store) nor the failure merge of `processJob`
ever clears a non-null `failed`, and `resetFailedJobs` clears them all —
but `createJob` with a caller-supplied duplicate id replaces the record
wholesale, losing the marker (see the counterexample). -/
theorem terminal_failure_persistent (st : Store) (b : Option Int)
    (jobs : List Job) (job : Job) (msg : String) (now : Int)
    (hwf : WFStore st) :
    (job.data.attempts ≤ job.data.failedAttempts.getD 0 + 1 →
        ∃ m, (processJob st job (.error msg) now).1.find job.id = some m ∧
          m.failed = some now) ∧
    (∀ j : Job, j.failed ≠ none → j ∉ st.findNextJobs b) ∧
    ((jobs.map Job.id).Nodup → (∀ j ∈ jobs, st.find j.id = some j) →
        ∀ k jOld, st.find k = some jOld → jOld.failed ≠ none →
          ∃ j', (st.markActive jobs).1.find k = some j' ∧
            j'.failed = jOld.failed) ∧
    (st.find job.id = some job →
        ∀ k jOld, st.find k = some jOld → jOld.failed ≠ none →
          ∃ j', (processJob st job (.error msg) now).1.find k = some j' ∧
            j'.failed ≠ none) ∧
    (∀ k j', (st.resetFailedJobs).find k = some j' → j'.failed = none) := by
  have hmark : ∀ (l : List Job),
      (l.map (fun j => { j with active := true })).map Job.id = l.map Job.id := by
    intro l
    rw [List.map_map]
    exact List.map_congr_left (fun _ _ => rfl)
  have hclear : ∀ (l : List Job),
      (l.map (fun j => { j with failed := (none : Option Int) })).map Job.id =
        l.map Job.id := by
    intro l
    rw [List.map_map]
    exact List.map_congr_left (fun _ _ => rfl)
  refine ⟨?_, ?_, ?_, ?_, ?_⟩
  · intro hc
    rw [processJob_error_store st job msg now]
    refine ⟨_, find_create_self st _, ?_⟩
    show (if job.data.attempts ≤ incFailedAttempts job.data.failedAttempts
        then some now else job.failed) = some now
    rw [incFailedAttempts_eq, if_pos hc]
  · intro j hf hmem
    rcases b with _ | bv
    · exact hf ((mem_findNextJobs_none st j).mp hmem).2.2
    · exact hf ((mem_findNextJobs_some st j bv).mp hmem).2.2.1
  · intro hnd hsub k jOld hk hf
    show ∃ j', (st.saveAll (jobs.map (fun j => { j with active := true }))).find k =
        some j' ∧ j'.failed = jOld.failed
    by_cases hmem : ∃ j ∈ jobs, j.id = k
    · rcases hmem with ⟨j, hj, rfl⟩
      have hjOld : jOld = j := by
        have := hsub j hj
        rw [this] at hk
        exact (Option.some_inj.mp hk).symm
      refine ⟨{ j with active := true }, ?_, by rw [hjOld]⟩
      have : ({ j with active := true } : Job) ∈
          jobs.map (fun j => { j with active := true }) :=
        List.mem_map_of_mem _ hj
      exact find_saveAll_mem _ st _ this (by rw [hmark jobs]; exact hnd)
    · refine ⟨jOld, ?_, rfl⟩
      rw [find_saveAll_not_mem _ st k ?_, hk]
      intro x hx
      rcases List.mem_map.mp hx with ⟨j, hj, rfl⟩
      exact fun hEq => hmem ⟨j, hj, hEq⟩
  · intro hj k jOld hk hf
    rw [processJob_error_store st job msg now]
    by_cases hkk : k = job.id
    · subst hkk
      have hjOld : jOld = job := by
        rw [hj] at hk
        exact (Option.some_inj.mp hk).symm
      refine ⟨_, find_create_self st _, ?_⟩
      show (if job.data.attempts ≤ incFailedAttempts job.data.failedAttempts
          then some now else job.failed) ≠ none
      by_cases hc : job.data.attempts ≤ incFailedAttempts job.data.failedAttempts
      · simp [hc]
      · rw [if_neg hc]
        rw [hjOld] at hf
        exact hf
    · refine ⟨jOld, ?_, hf⟩
      rw [find_create_ne st _ k (by simpa using hkk), hk]
  · intro k j' hfind
    unfold Store.resetFailedJobs at hfind
    by_cases hkey : ∃ p ∈ st, p.1 = k
    · rcases hkey with ⟨p, hp, rfl⟩
      have hpid : p.1 = p.2.id := hwf.2 p hp
      have hmemc : ({ p.2 with failed := (none : Option Int) } : Job) ∈
          st.objects.map (fun j => { j with failed := (none : Option Int) }) :=
        List.mem_map_of_mem _ (List.mem_map_of_mem Prod.snd hp)
      have hndc : ((st.objects.map
          (fun j => { j with failed := (none : Option Int) })).map Job.id).Nodup := by
        rw [hclear st.objects]
        exact objects_ids_nodup st hwf
      have hfound := find_saveAll_mem _ st _ hmemc hndc
      have hkid : ({ p.2 with failed := (none : Option Int) } : Job).id = p.1 :=
        hpid.symm
      rw [hkid] at hfound
      rw [hfound] at hfind
      have := Option.some_inj.mp hfind
      rw [← this]
    · exfalso
      have hnone : st.find k = none := by
        unfold Store.find
        rw [List.find?_eq_none.mpr ?_]
        · rfl
        · intro p hp
          simpa using fun hEq => hkey ⟨p, hp, hEq⟩
      rw [find_saveAll_not_mem _ st k ?_, hnone] at hfind
      · cases hfind
      · intro x hx
        rcases List.mem_map.mp hx with ⟨j, hj, rfl⟩
        show j.id ≠ k
        rcases List.mem_map.mp hj with ⟨p, hp, rfl⟩
        have := hwf.2 p hp
        rw [← this]
        exact fun hEq => hkey ⟨p, hp, hEq⟩

/-- Witness for the amended C4: in the sample store, failing job `a`
(budget 1) terminally marks it, and the failed job `e` is not a candidate. -/
theorem terminal_failure_persistent_witness :
    (∃ m, (processJob sampleStore (mkJob "a" "w" 0 10) (.error "x") 7).1.find "a" =
        some m ∧ m.failed = some 7) ∧
    mkJob "e" "w" 9 1 25000 false (some 3) ∉ sampleStore.findNextJobs none :=
  ⟨(terminal_failure_persistent sampleStore none [] (mkJob "a" "w" 0 10) "x" 7
      (by decide)).1 (by decide),
   (terminal_failure_persistent sampleStore none [] (mkJob "a" "w" 0 10) "x" 7
      (by decide)).2.1 _ (by decide)⟩

end RNQueue
